import Mathlib

/-!
Verification of the task-list core of a small client-side todo application
(`src/app.js`).  The stateful logic is embedded shallowly:

* a task record (`Todo`) mirrors the object literals built in `addTodo`;
* JS strings are modelled as `List Char` and `String.prototype.trim` as
  `trim` below;
* the ambient values read during one `addTodo` call (`Date.now()`,
  `Math.random()`, `new Date().toISOString()`) form a `GenEnv` record, so a
  generated `id` is the rational `now + rand` with `rand ∈ [0,1)`;
* the collection operations `addTodo`, `toggleTodo`, `deleteTodo`,
  `editTodo` and their guarded entry points `handleSubmit`
  (`AddTodo.handleSubmit`) and `handleEdit` (`TodoItem.handleEdit`) are
  direct translations; the `Bool` each entry point returns records whether
  `setTodos` was invoked, which is exactly when the persistence
  `useEffect` fires;
* localStorage together with `JSON.stringify` / `JSON.parse` is modelled at
  the level of JSON values (`Jval`): the stored slot is absent, a string
  that fails to parse, or a string that parses to a JSON value.
-/

/-- Whitespace characters removed by `String.prototype.trim` (restricted to
the ASCII whitespace that can occur in this application's inputs). -/
def isWs (c : Char) : Bool := c = ' ' || c = '\t' || c = '\n' || c = '\r'

/-- JS `s.trim()`: remove whitespace from both ends of the string. -/
def trim (s : List Char) : List Char :=
  ((s.dropWhile isWs).reverse.dropWhile isWs).reverse

/-- One task record, as built in `addTodo`:
`{ id: Date.now() + Math.random(), text, completed: false,
   createdAt: new Date().toISOString() }`. -/
structure Todo where
  id : ℚ
  text : List Char
  completed : Bool
  createdAt : List Char
  deriving DecidableEq

/-- The ambient values read during one `addTodo` call: `Date.now()` in
milliseconds, `Math.random()` (a rational in `[0,1)` in the idealised
model), and the string `new Date().toISOString()`. -/
structure GenEnv where
  now : ℕ
  rand : ℚ
  iso : List Char
  deriving DecidableEq

/-- The id expression of `addTodo`: `Date.now() + Math.random()`. -/
def genId (e : GenEnv) : ℚ := (e.now : ℚ) + e.rand

/-- `addTodo(text)`: build the new record and prepend it
(`setTodos(prev => [newTodo, ...prev])`). -/
def addTodo (e : GenEnv) (text : List Char) (todos : List Todo) : List Todo :=
  ⟨genId e, text, false, e.iso⟩ :: todos

/-- `toggleTodo(id)`: map over the collection, flipping `completed` on the
record whose `id` matches. -/
def toggleTodo (id : ℚ) (todos : List Todo) : List Todo :=
  todos.map fun todo =>
    if todo.id = id then { todo with completed := !todo.completed } else todo

/-- `deleteTodo(id)`: keep the records whose `id` differs. -/
def deleteTodo (id : ℚ) (todos : List Todo) : List Todo :=
  todos.filter fun todo => decide (todo.id ≠ id)

/-- `editTodo(id, newText)`: map over the collection, replacing `text` on
the record whose `id` matches. -/
def editTodo (id : ℚ) (newText : List Char) (todos : List Todo) : List Todo :=
  todos.map fun todo =>
    if todo.id = id then { todo with text := newText } else todo

/-- `AddTodo.handleSubmit`: trim the input; only a non-empty trimmed value
is handed to `addTodo` (and only then is `setTodos` invoked, making the
persistence effect fire — recorded in the returned `Bool`). -/
def handleSubmit (e : GenEnv) (inputValue : List Char) (todos : List Todo) :
    List Todo × Bool :=
  if trim inputValue ≠ [] then (addTodo e (trim inputValue) todos, true)
  else (todos, false)

/-- `TodoItem.handleEdit` (save path): trim the edit value; `editTodo` is
called only when the trimmed value is non-empty and differs from the
record's current text, otherwise the edit box is reset and no state
changes (the returned `Bool` records whether `setTodos` was invoked). -/
def handleEdit (todo : Todo) (editValue : List Char) (todos : List Todo) :
    List Todo × Bool :=
  if trim editValue ≠ [] ∧ trim editValue ≠ todo.text then
    (editTodo todo.id (trim editValue) todos, true)
  else (todos, false)

/-- The three filter states of the UI. -/
inductive TodoFilter where
  | all
  | completed
  | pending
  deriving DecidableEq

/-- `TodoList.filteredTodos`: the `switch` on the active filter. -/
def filteredTodos (filter : TodoFilter) (todos : List Todo) : List Todo :=
  todos.filter fun todo =>
    match filter with
    | .completed => todo.completed
    | .pending => !todo.completed
    | .all => true

/-- `totalTodos = todos.length`. -/
def totalTodos (todos : List Todo) : ℕ := todos.length

/-- `completedTodos = todos.filter(todo => todo.completed).length`. -/
def completedTodos (todos : List Todo) : ℕ :=
  (todos.filter fun todo => todo.completed).length

/-- `pendingTodos = totalTodos - completedTodos` (computed by subtraction,
not by counting). -/
def pendingTodos (todos : List Todo) : ℕ :=
  totalTodos todos - completedTodos todos

/-! Basic facts about `trim`. -/

theorem dropWhile_idem (p : Char → Bool) (l : List Char) :
    (l.dropWhile p).dropWhile p = l.dropWhile p := by
  induction l with
  | nil => rfl
  | cons c t ih => cases h : p c <;> simp [List.dropWhile_cons, h, ih]

theorem length_dropWhile_le (p : Char → Bool) (l : List Char) :
    (l.dropWhile p).length ≤ l.length := by
  induction l with
  | nil => simp
  | cons c t ih =>
    cases h : p c
    · simp [List.dropWhile_cons, h]
    · simp only [List.dropWhile_cons, h, if_pos, List.length_cons]
      exact Nat.le_trans ih (Nat.le_succ _)

theorem length_trim_le (s : List Char) : (trim s).length ≤ s.length := by
  have h1 := length_dropWhile_le isWs s
  have h2 := length_dropWhile_le isWs (s.dropWhile isWs).reverse
  simp only [trim, List.length_reverse] at *
  omega

/-- The left-trim half of `trim`. -/
def trimLeft (s : List Char) : List Char := s.dropWhile isWs

/-- The right-trim half of `trim`. -/
def trimRight (s : List Char) : List Char := (s.reverse.dropWhile isWs).reverse

theorem trim_eq (s : List Char) : trim s = trimRight (trimLeft s) := rfl

theorem trimRight_trimRight (s : List Char) :
    trimRight (trimRight s) = trimRight s := by
  simp [trimRight, List.reverse_reverse, dropWhile_idem]

theorem head?_dropWhile_false (p : Char → Bool) (l : List Char) (c : Char)
    (h : (l.dropWhile p).head? = some c) : p c = false := by
  induction l with
  | nil => simp at h
  | cons a t ih =>
    cases hpa : p a
    · rw [List.dropWhile_cons, if_neg (by simp [hpa])] at h
      simp only [List.head?_cons, Option.some.injEq] at h
      rw [← h]
      exact hpa
    · rw [List.dropWhile_cons, if_pos (by simp [hpa])] at h
      exact ih h

theorem dropWhile_eq_self_of_head (p : Char → Bool) (l : List Char)
    (h : ∀ c, l.head? = some c → p c = false) : l.dropWhile p = l := by
  cases l with
  | nil => rfl
  | cons a t => rw [List.dropWhile_cons, if_neg (by simp [h a rfl])]

theorem trimRight_head? (s : List Char) :
    trimRight s = [] ∨ (trimRight s).head? = s.head? := by
  cases s with
  | nil => left; rfl
  | cons a t =>
    rw [trimRight, List.reverse_cons, List.dropWhile_append]
    cases hemp : (t.reverse.dropWhile isWs).isEmpty
    · right
      simp only [hemp, Bool.false_eq_true, if_neg, List.reverse_append]
      simp
    · cases hwa : isWs a
      · right
        simp [hemp, List.dropWhile_cons, hwa]
      · left
        simp [hemp, List.dropWhile_cons, hwa]

theorem trimLeft_trim (s : List Char) : trimLeft (trim s) = trim s := by
  rcases trimRight_head? (trimLeft s) with h | h
  · rw [trim_eq, h]; rfl
  · apply dropWhile_eq_self_of_head
    intro c hc
    rw [trim_eq] at hc
    rw [h] at hc
    exact head?_dropWhile_false isWs s c hc

theorem trim_trim (s : List Char) : trim (trim s) = trim s := by
  rw [trim_eq (trim s), trimLeft_trim, trim_eq s, trimRight_trimRight,
    ← trim_eq]

/-! The text invariant: every stored text is a non-empty trimmed string of
at most 100 characters (both input boxes carry `maxLength={100}`, so every
raw input string has length at most 100). -/

/-- A non-empty trimmed string of at most 100 characters. -/
def WellFormedText (t : List Char) : Prop :=
  t ≠ [] ∧ trim t = t ∧ t.length ≤ 100

instance : DecidablePred WellFormedText := fun t =>
  decidable_of_iff (t ≠ [] ∧ trim t = t ∧ t.length ≤ 100) Iff.rfl

/-- Collections reachable through the UI entry points, starting from the
empty collection: submitting the add form, toggling, deleting, and saving
an inline edit.  Raw inputs are bounded by the `maxLength={100}` attribute
of the two text inputs. -/
inductive Reachable : List Todo → Prop where
  | init : Reachable []
  | submit (e : GenEnv) (raw : List Char) (c : List Todo) :
      Reachable c → raw.length ≤ 100 → Reachable (handleSubmit e raw c).fst
  | toggle (id : ℚ) (c : List Todo) : Reachable c → Reachable (toggleTodo id c)
  | del (id : ℚ) (c : List Todo) : Reachable c → Reachable (deleteTodo id c)
  | editSave (todo : Todo) (ev : List Char) (c : List Todo) :
      Reachable c → ev.length ≤ 100 → Reachable (handleEdit todo ev c).fst

/-- Claim C4: in every reachable collection, every record's `text` is a
non-empty trimmed string of length at most 100; the invariant is preserved
by the add and edit operations (as well as toggle and delete). -/
theorem reachable_text_wellformed (c : List Todo) (h : Reachable c) :
    ∀ t ∈ c, WellFormedText t.text := by
  induction h with
  | init => intro t ht; simp at ht
  | submit e raw c' hc hlen ih =>
    intro t ht
    by_cases hg : trim raw = []
    · rw [handleSubmit, if_neg (by simp [hg])] at ht
      exact ih t ht
    · rw [handleSubmit, if_pos hg] at ht
      simp only [addTodo, List.mem_cons] at ht
      rcases ht with rfl | ht
      · exact ⟨hg, trim_trim raw, Nat.le_trans (length_trim_le raw) hlen⟩
      · exact ih t ht
  | toggle id c' hc ih =>
    intro t ht
    simp only [toggleTodo, List.mem_map] at ht
    obtain ⟨t', ht', rfl⟩ := ht
    by_cases h' : t'.id = id
    · simpa [h'] using ih t' ht'
    · simpa [h'] using ih t' ht'
  | del id c' hc ih =>
    intro t ht
    exact ih t (List.mem_of_mem_filter ht)
  | editSave todo ev c' hc hlen ih =>
    intro t ht
    by_cases hg : trim ev ≠ [] ∧ trim ev ≠ todo.text
    · rw [handleEdit, if_pos hg] at ht
      simp only [editTodo, List.mem_map] at ht
      obtain ⟨t', ht', rfl⟩ := ht
      by_cases h' : t'.id = todo.id
      · simp only [h', if_true]
        exact ⟨hg.1, trim_trim ev, Nat.le_trans (length_trim_le ev) hlen⟩
      · simpa [h'] using ih t' ht'
    · rw [handleEdit, if_neg hg] at ht
      exact ih t ht

/-! Sequences of add operations and id generation. -/

/-- The record built by one `addTodo(text)` call under environment `e`. -/
def mkAdd (s : GenEnv × List Char) : Todo :=
  ⟨genId s.1, s.2, false, s.1.iso⟩

/-- Run a sequence of `addTodo` calls, oldest first. -/
def runAdds (steps : List (GenEnv × List Char)) (todos : List Todo) :
    List Todo :=
  steps.foldl (fun c s => addTodo s.1 s.2 c) todos

/-- The record built by one submitted add form under environment `e`:
`handleSubmit` hands the trimmed value to `addTodo`. -/
def mkSubmit (s : GenEnv × List Char) : Todo :=
  ⟨genId s.1, trim s.2, false, s.1.iso⟩

/-- Run a sequence of add-form submissions, oldest first. -/
def runSubmits (steps : List (GenEnv × List Char)) (todos : List Todo) :
    List Todo :=
  steps.foldl (fun c s => (handleSubmit s.1 s.2 c).fst) todos

/-- No two of the collection's records share an `id`. -/
def IdsUnique (c : List Todo) : Prop :=
  c.Pairwise (fun a b => a.id ≠ b.id)

theorem runAdds_eq (steps : List (GenEnv × List Char)) :
    ∀ todos, runAdds steps todos = steps.reverse.map mkAdd ++ todos := by
  induction steps with
  | nil => intro todos; simp [runAdds]
  | cons s t ih =>
    intro todos
    show runAdds t (addTodo s.1 s.2 todos) = _
    rw [ih (addTodo s.1 s.2 todos)]
    simp [addTodo, mkAdd, List.reverse_cons]

/-- `Date.now() + Math.random()` values of two creations coincide exactly
when both the millisecond timestamps and the random draws coincide. -/
theorem genId_inj (e1 e2 : GenEnv)
    (h1a : 0 ≤ e1.rand) (h1b : e1.rand < 1)
    (h2a : 0 ≤ e2.rand) (h2b : e2.rand < 1)
    (hne : (e1.now, e1.rand) ≠ (e2.now, e2.rand)) :
    genId e1 ≠ genId e2 := by
  intro h
  apply hne
  rw [genId, genId] at h
  have hnow : e1.now = e2.now := by
    by_contra hn
    rcases Nat.lt_or_ge e1.now e2.now with hlt | hge
    · have hc : (e1.now : ℚ) + 1 ≤ (e2.now : ℚ) := by
        exact_mod_cast Nat.succ_le_of_lt hlt
      linarith
    · have hlt : e2.now < e1.now := Nat.lt_of_le_of_ne hge (Ne.symm hn)
      have hc : (e2.now : ℚ) + 1 ≤ (e1.now : ℚ) := by
        exact_mod_cast Nat.succ_le_of_lt hlt
      linarith
  have hcast : (e1.now : ℚ) = (e2.now : ℚ) := by exact_mod_cast hnow
  have hrand : e1.rand = e2.rand := by linarith
  rw [hnow, hrand]

/-- Claim C1 (counterexample): two `addTodo` calls made in the same
millisecond whose `Math.random()` draws coincide produce two records with
the same `id`, so the claimed unconditional uniqueness fails. -/
theorem addTodo_id_collision :
    ¬ IdsUnique
      (runAdds [(⟨1000, 1 / 2, []⟩, ['a']), (⟨1000, 1 / 2, []⟩, ['b'])] []) := by
  intro h
  rw [runAdds_eq] at h
  simp only [List.reverse_cons, List.reverse_nil, List.nil_append,
    List.append_nil, List.map_cons, List.map_nil, List.cons_append,
    List.pairwise_cons, IdsUnique] at h
  exact h.1 (mkAdd (⟨1000, 1 / 2, []⟩, ['a'])) (by simp) rfl

/-- Claim C1 (amended): records created by a sequence of `addTodo` calls
have pairwise distinct `id`s provided no two calls observe both the same
`Date.now()` millisecond and the same `Math.random()` draw; in particular
calls in distinct milliseconds never collide. -/
theorem addTodo_ids_unique_of_distinct_env
    (steps : List (GenEnv × List Char))
    (hr : ∀ s ∈ steps, 0 ≤ s.1.rand ∧ s.1.rand < 1)
    (hd : (steps.map fun s => (s.1.now, s.1.rand)).Pairwise (fun a b => a ≠ b)) :
    IdsUnique (runAdds steps []) := by
  have hd' : steps.Pairwise
      (fun a b => (a.1.now, a.1.rand) ≠ (b.1.now, b.1.rand)) := by
    rw [List.pairwise_map] at hd
    exact hd
  have key : steps.Pairwise (fun a b => genId a.1 ≠ genId b.1) := by
    refine hd'.imp_of_mem ?_
    intro a b ha hb hne
    exact genId_inj a.1 b.1 (hr a ha).1 (hr a ha).2 (hr b hb).1 (hr b hb).2 hne
  rw [runAdds_eq, List.append_nil]
  show (steps.reverse.map mkAdd).Pairwise (fun a b => a.id ≠ b.id)
  rw [List.pairwise_map, List.pairwise_reverse]
  exact key.imp fun h => Ne.symm h

/-- Witness for the amended Claim C1 at a concrete two-step run. -/
theorem addTodo_ids_unique_of_distinct_env_witness :
    IdsUnique
      (runAdds [(⟨1000, 0, []⟩, ['a']), (⟨1001, 0, []⟩, ['b'])] []) :=
  addTodo_ids_unique_of_distinct_env _ (by decide) (by decide)

theorem runSubmits_eq (steps : List (GenEnv × List Char))
    (h : ∀ s ∈ steps, trim s.2 ≠ []) :
    ∀ todos, runSubmits steps todos = steps.reverse.map mkSubmit ++ todos := by
  induction steps with
  | nil => intro todos; simp [runSubmits]
  | cons s t ih =>
    intro todos
    have hs : trim s.2 ≠ [] := h s (List.mem_cons_self s t)
    have ih' := ih fun x hx => h x (List.mem_cons_of_mem s hx)
    show runSubmits t (handleSubmit s.1 s.2 todos).fst = _
    rw [handleSubmit, if_pos hs]
    rw [ih' (addTodo s.1 (trim s.2) todos)]
    simp [addTodo, mkSubmit, List.reverse_cons]

/-- Claim C5: a run of `n` submitted adds with non-empty trimmed text grows
the collection by exactly `n` records; each run prepends its record, so the
result is the new records newest-first in front of the old collection, and
every new record has `completed = false`. -/
theorem runSubmits_adds_records (steps : List (GenEnv × List Char))
    (todos : List Todo) (h : ∀ s ∈ steps, trim s.2 ≠ []) :
    runSubmits steps todos = steps.reverse.map mkSubmit ++ todos ∧
    (runSubmits steps todos).length = todos.length + steps.length ∧
    ∀ t ∈ steps.reverse.map mkSubmit, t.completed = false := by
  refine ⟨runSubmits_eq steps h todos, ?_, ?_⟩
  · rw [runSubmits_eq steps h todos]
    simp [Nat.add_comm]
  · intro t ht
    simp only [List.mem_map] at ht
    obtain ⟨x, hx, rfl⟩ := ht
    rfl

/-- Witness for Claim C5 at a concrete one-step run. -/
theorem runSubmits_adds_records_witness :
    runSubmits [(⟨1, 0, []⟩, ['a'])] [] =
      ([(⟨1, 0, []⟩, ['a'])] : List (GenEnv × List Char)).reverse.map
        mkSubmit ++ [] ∧
    (runSubmits [(⟨1, 0, []⟩, ['a'])] []).length =
      List.length ([] : List Todo) +
        List.length ([(⟨1, 0, []⟩, ['a'])] : List (GenEnv × List Char)) ∧
    ∀ t ∈ ([(⟨1, 0, []⟩, ['a'])] : List (GenEnv × List Char)).reverse.map
        mkSubmit, t.completed = false :=
  runSubmits_adds_records [(⟨1, 0, []⟩, ['a'])] [] (by decide)

/-- Claim C2: submitting an input whose trimmed form is empty is a no-op —
the collection is unchanged and `setTodos` (hence the persistence effect)
is not invoked. -/
theorem handleSubmit_empty_trim_noop (e : GenEnv) (inputValue : List Char)
    (todos : List Todo) (h : trim inputValue = []) :
    handleSubmit e inputValue todos = (todos, false) := by
  rw [handleSubmit, if_neg (by simp [h])]

/-- Witness for Claim C2 on the all-blank input `"   "`. -/
theorem handleSubmit_empty_trim_noop_witness :
    handleSubmit ⟨1, 0, []⟩ [' ', ' ', ' '] [] = ([], false) :=
  handleSubmit_empty_trim_noop ⟨1, 0, []⟩ [' ', ' ', ' '] [] (by decide)

/-- Claim C3: saving an edit whose trimmed value is empty or equal to the
record's current text causes no mutation — the collection is unchanged and
`setTodos` (hence the persistence effect) is not invoked. -/
theorem handleEdit_noop_of_empty_or_same (todos : List Todo) (todo : Todo)
    (editValue : List Char) (_hmem : todo ∈ todos)
    (h : trim editValue = [] ∨ trim editValue = todo.text) :
    handleEdit todo editValue todos = (todos, false) := by
  rcases h with h | h <;> rw [handleEdit, if_neg (by simp [h])]

/-- Witness for Claim C3: re-saving a record's own text is a no-op. -/
theorem handleEdit_noop_of_empty_or_same_witness :
    handleEdit ⟨5, ['a'], false, []⟩ ['a'] [⟨5, ['a'], false, []⟩] =
      ([⟨5, ['a'], false, []⟩], false) :=
  handleEdit_noop_of_empty_or_same [⟨5, ['a'], false, []⟩] ⟨5, ['a'], false, []⟩
    ['a'] (by simp) (by right; decide)

/-! Toggle, edit and stats. -/

theorem toggleTodo_toggleTodo (id : ℚ) (todos : List Todo) :
    toggleTodo id (toggleTodo id todos) = todos := by
  induction todos with
  | nil => rfl
  | cons t ts ih =>
    simp only [toggleTodo, List.map_cons] at ih ⊢
    rw [ih]
    obtain ⟨tid, ttext, tc, tca⟩ := t
    by_cases h : tid = id <;> simp [h]

theorem toggleTodo_not_found (id : ℚ) (todos : List Todo)
    (h : ∀ t ∈ todos, t.id ≠ id) : toggleTodo id todos = todos := by
  induction todos with
  | nil => rfl
  | cons t ts ih =>
    rw [toggleTodo, List.map_cons, if_neg (h t (List.mem_cons_self t ts))]
    rw [toggleTodo] at ih
    rw [ih fun x hx => h x (List.mem_cons_of_mem t hx)]

/-- Claim C8: toggling an `id` present in the collection twice restores the
original collection (so the record's `completed` flag returns to its
original value), and toggling an `id` that matches no record leaves the
collection unchanged. -/
theorem toggleTodo_involution_and_noop (todos : List Todo) (id : ℚ) :
    ((∃ t ∈ todos, t.id = id) →
      toggleTodo id (toggleTodo id todos) = todos) ∧
    ((∀ t ∈ todos, t.id ≠ id) → toggleTodo id todos = todos) :=
  ⟨fun _ => toggleTodo_toggleTodo id todos, toggleTodo_not_found id todos⟩

/-- Witness for Claim C8 on a one-record collection. -/
theorem toggleTodo_involution_and_noop_witness :
    toggleTodo 5 (toggleTodo 5 [⟨5, ['a'], false, []⟩]) =
      [⟨5, ['a'], false, []⟩] ∧
    toggleTodo 7 [⟨5, ['a'], false, []⟩] = [⟨5, ['a'], false, []⟩] :=
  ⟨(toggleTodo_involution_and_noop [⟨5, ['a'], false, []⟩] 5).1
      ⟨⟨5, ['a'], false, []⟩, by simp, rfl⟩,
    (toggleTodo_involution_and_noop [⟨5, ['a'], false, []⟩] 7).2 (by decide)⟩

/-- Claim C9: when a record with the given `id` is present and the new text
is non-empty after trimming, `editTodo` keeps the collection's length and
order, replaces exactly the matching record's `text`, leaves its
`completed`, `id` and `createdAt` fields untouched, and leaves every other
record unchanged. -/
theorem editTodo_frame (todos : List Todo) (id : ℚ) (newText : List Char)
    (_hmem : ∃ t ∈ todos, t.id = id) (_hne : trim newText ≠ []) :
    (editTodo id newText todos).length = todos.length ∧
    ∀ (i : ℕ) (t : Todo), todos[i]? = some t →
      (t.id = id →
        (editTodo id newText todos)[i]? = some { t with text := newText }) ∧
      (t.id ≠ id → (editTodo id newText todos)[i]? = some t) := by
  constructor
  · simp [editTodo]
  · intro i t ht
    constructor <;> intro h <;> simp [editTodo, List.getElem?_map, ht, h]

/-- Witness for Claim C9 on a one-record collection. -/
theorem editTodo_frame_witness :
    (editTodo 5 ['b'] [⟨5, ['a'], false, []⟩]).length =
      ([⟨5, ['a'], false, []⟩] : List Todo).length ∧
    ∀ (i : ℕ) (t : Todo), ([⟨5, ['a'], false, []⟩] : List Todo)[i]? = some t →
      (t.id = 5 →
        (editTodo 5 ['b'] [⟨5, ['a'], false, []⟩])[i]? =
          some { t with text := ['b'] }) ∧
      (t.id ≠ 5 → (editTodo 5 ['b'] [⟨5, ['a'], false, []⟩])[i]? = some t) :=
  editTodo_frame [⟨5, ['a'], false, []⟩] 5 ['b']
    ⟨⟨5, ['a'], false, []⟩, by simp, rfl⟩ (by decide)

theorem completed_pending_split (l : List Todo) :
    (l.filter fun todo => todo.completed).length +
      (l.filter fun todo => !todo.completed).length = l.length := by
  induction l with
  | nil => rfl
  | cons t ts ih => cases h : t.completed <;> simp [List.filter_cons, h] <;> omega

/-- Claim C10: the derived stats agree with each other and with the filter
used by the list view — `total` is the collection length,
`total = completed + pending`, `completed` counts the records shown under
the `completed` filter, and `pending` (though computed by subtraction)
counts the records shown under the `pending` filter. -/
theorem stats_consistent (todos : List Todo) :
    totalTodos todos = todos.length ∧
    totalTodos todos = completedTodos todos + pendingTodos todos ∧
    completedTodos todos = (filteredTodos TodoFilter.completed todos).length ∧
    pendingTodos todos = (filteredTodos TodoFilter.pending todos).length := by
  refine ⟨rfl, ?_, rfl, ?_⟩
  · have hle : (todos.filter fun todo => todo.completed).length ≤
        todos.length := List.length_filter_le _ _
    simp only [totalTodos, completedTodos, pendingTodos]
    omega
  · have hsplit := completed_pending_split todos
    show totalTodos todos - completedTodos todos =
      (todos.filter fun todo => !todo.completed).length
    rw [totalTodos, completedTodos]
    omega

/-! Persistence.  `localStorage` holds strings; the application stores
`JSON.stringify(todos)` under the fixed key `todoApp_todos` and reads it
back with `JSON.parse`.  The host's JSON codec is faithful at the level of
JSON values, so the slot is modelled as seen through `JSON.parse`: the key
is absent, or holds a string that fails to parse (`.error`), or holds a
string that parses to a JSON value (`.ok`). -/

/-- A JSON value (JS numbers idealised as rationals). -/
inductive Jval where
  | num (q : ℚ)
  | str (s : List Char)
  | boolean (b : Bool)
  | arr (elems : List Jval)
  | obj (fields : List (List Char × Jval))

/-- The field names of a serialized task record. -/
def idKey : List Char := ['i', 'd']

/-- Field name `text`. -/
def textKey : List Char := ['t', 'e', 'x', 't']

/-- Field name `completed`. -/
def completedKey : List Char :=
  ['c', 'o', 'm', 'p', 'l', 'e', 't', 'e', 'd']

/-- Field name `createdAt`. -/
def createdAtKey : List Char :=
  ['c', 'r', 'e', 'a', 't', 'e', 'd', 'A', 't']

/-- `JSON.stringify` of one task record, at the JSON-value level. -/
def encodeTodo (t : Todo) : Jval :=
  .obj [(idKey, .num t.id), (textKey, .str t.text),
    (completedKey, .boolean t.completed), (createdAtKey, .str t.createdAt)]

/-- `JSON.stringify` of the collection, at the JSON-value level. -/
def encodeTodos (todos : List Todo) : Jval :=
  .arr (todos.map encodeTodo)

/-- Read a JSON number. -/
def asNum : Jval → Option ℚ
  | .num q => some q
  | _ => none

/-- Read a JSON string. -/
def asStr : Jval → Option (List Char)
  | .str s => some s
  | _ => none

/-- Read a JSON boolean. -/
def asBool : Jval → Option Bool
  | .boolean b => some b
  | _ => none

/-- The typed reading of one parsed record (the object graph `JSON.parse`
returns, viewed at the record type). -/
def decodeTodo : Jval → Option Todo
  | .obj fields => do
    let i ← (fields.lookup idKey).bind asNum
    let tx ← (fields.lookup textKey).bind asStr
    let b ← (fields.lookup completedKey).bind asBool
    let ca ← (fields.lookup createdAtKey).bind asStr
    pure ⟨i, tx, b, ca⟩
  | _ => none

/-- The typed reading of a parsed array of records. -/
def decodeTodoList : List Jval → Option (List Todo)
  | [] => some []
  | j :: rest =>
    match decodeTodo j, decodeTodoList rest with
    | some t, some ts => some (t :: ts)
    | _, _ => none

/-- The typed reading of the parsed collection. -/
def decodeTodos : Jval → Option (List Todo)
  | .arr elems => decodeTodoList elems
  | _ => none

/-- The `todoApp_todos` slot of localStorage, seen through `JSON.parse`:
`none` — the key is absent; `some (.error e)` — a stored string on which
`JSON.parse` throws `e`; `some (.ok j)` — a stored string that parses to
the JSON value `j`. -/
def StoredSlot : Type := Option (Except (List Char) Jval)

/-- The save effect: `localStorage.setItem('todoApp_todos',
JSON.stringify(todos))` — the slot is overwritten unconditionally. -/
def saveTodos (todos : List Todo) : StoredSlot :=
  some (.ok (encodeTodos todos))

/-- The load effect: read the slot; if the key is absent, `todos` keeps its
initial value `[]`; if `JSON.parse` throws, the exception is caught,
`console.error` is called (second component: the log) and `todos` stays
`[]`; otherwise the parsed value is read back.  The function is total:
no branch re-raises.  (The source stores the parsed value without shape
validation; a parsed value of a shape other than a record array cannot
occur in the typed model and is mapped to the initial state.) -/
def loadTodos (slot : StoredSlot) : List Todo × List (List Char) :=
  match slot with
  | none => ([], [])
  | some (.error e) => ([], [e])
  | some (.ok j) =>
    match decodeTodos j with
    | some ts => (ts, [])
    | none => ([], [])

theorem decodeTodo_encodeTodo (t : Todo) :
    decodeTodo (encodeTodo t) = some t := rfl

theorem decodeTodos_encodeTodos (todos : List Todo) :
    decodeTodos (encodeTodos todos) = some todos := by
  induction todos with
  | nil => rfl
  | cons t ts ih =>
    show decodeTodoList (encodeTodo t :: ts.map encodeTodo) = _
    rw [decodeTodoList, decodeTodo_encodeTodo]
    have ih' : decodeTodoList (ts.map encodeTodo) = some ts := ih
    rw [ih']

/-- Claim C6: `load` is total — it never raises to its caller.  When the
key is absent it yields the empty collection (and logs nothing); when the
stored value fails to parse, the failure is caught, reported to the
`console.error` sink, and the empty collection is yielded. -/
theorem loadTodos_never_raises (slot : StoredSlot) :
    (slot = none → loadTodos slot = ([], [])) ∧
    (∀ e, slot = some (.error e) →
      (loadTodos slot).fst = [] ∧ (loadTodos slot).snd = [e]) := by
  constructor
  · rintro rfl; rfl
  · rintro e rfl; exact ⟨rfl, rfl⟩

/-- Witness for Claim C6 at an absent key and at an unparsable value. -/
theorem loadTodos_never_raises_witness :
    loadTodos none = ([], []) ∧
    (loadTodos (some (.error ['x']))).fst = [] ∧
    (loadTodos (some (.error ['x']))).snd = [['x']] :=
  ⟨(loadTodos_never_raises none).1 rfl,
    (loadTodos_never_raises (some (.error ['x']))).2 ['x'] rfl⟩

/-- Claim C7: saving a collection and loading it back yields an equal
collection (round trip through the serialized slot). -/
theorem save_load_roundtrip (c : List Todo)
    (_hwf : ∀ t ∈ c, WellFormedText t.text) :
    (loadTodos (saveTodos c)).fst = c := by
  show (match decodeTodos (encodeTodos c) with
    | some ts => (ts, ([] : List (List Char)))
    | none => ([], [])).fst = c
  rw [decodeTodos_encodeTodos]

/-- Witness for Claim C7 on a concrete well-formed collection. -/
theorem save_load_roundtrip_witness :
    (loadTodos (saveTodos [⟨5, ['a'], false, []⟩])).fst =
      [⟨5, ['a'], false, []⟩] :=
  save_load_roundtrip [⟨5, ['a'], false, []⟩] (by decide)

/-- Witness for Claim C4 on a concrete reachable collection (one submitted
add of the text `hi`). -/
theorem reachable_text_wellformed_witness :
    Reachable (handleSubmit ⟨1, 0, []⟩ ['h', 'i'] []).fst ∧
    ∀ t ∈ (handleSubmit ⟨1, 0, []⟩ ['h', 'i'] []).fst, WellFormedText t.text :=
  ⟨Reachable.submit ⟨1, 0, []⟩ ['h', 'i'] [] Reachable.init (by decide),
    reachable_text_wellformed _
      (Reachable.submit ⟨1, 0, []⟩ ['h', 'i'] [] Reachable.init (by decide))⟩
